import Mathlib

/-!
# A shallow embedding of `nightcrawler.py`

This file embeds the crawl-orchestration core of `nightcrawler.py` (a
bounded-concurrency web crawler built on asyncio + Playwright) as executable
Lean definitions, and proves properties of that embedding.

Modelling choices, stated once:

* URLs are records of the `urllib.parse` components of an absolute URL
  (`scheme`, `netloc`, `path`, `query`); the string form used by the source
  for set membership and the extension test is their concatenation.  For the
  well-formed absolute URLs the crawler manipulates,
  `urlparse(u.str).netloc = u.netloc`.
* The Playwright browser is the external collaborator; it is modelled by a
  `PageDriver`: `fetch u = none` models `page.goto`/extraction raising an
  exception before any link is extracted, `fetch u = some links` gives the
  absolute URLs (after `urljoin` resolution against `u`) extracted from the
  rendered page, and `responses u` the `(header, value)` pairs delivered to
  the `page.on('response')` callback while `u` loads.
* The source runs 10 asyncio workers on one event loop.  The event loop is
  cooperative: the visited-set check and insertion (lines 101-103) and the
  whole link loop (lines 119-125) contain no blocking awaits, so each is
  atomic; the run is therefore some sequence of dequeue / `crawl_page` /
  `task_done` steps against the shared state.  `run_crawl` is that sequence
  for the FIFO dequeue order, with a fuel argument standing for the number
  of worker loop iterations.
* `asyncio.Queue`'s unfinished-task counter is the `pending` field:
  `put` increments it, `task_done` decrements it; `join()` returns exactly
  when it is zero and the queue is empty.
-/

namespace NightCrawler

/-- An absolute URL, split into its `urllib.parse` components.  `netloc` is
`host[:port]` and contains no `/`; `path` starts with `/` when nonempty;
`query` includes its leading `?` when nonempty.  The absolute string form
(the crawler's identity key) is `Url.str`. -/
structure Url where
  scheme : String
  netloc : String
  path : String
  query : String
deriving DecidableEq, Repr

/-- The absolute string form of a URL, the form the source stores in its
sets and passes to `is_html_page`. -/
def Url.str (u : Url) : String := u.scheme ++ "://" ++ u.netloc ++ u.path ++ u.query

/-- Python's substring operator `sub in s` on strings. -/
def str_contains (s sub : String) : Bool := decide (sub.toList <:+: s.toList)

/-- Model of `extensions_to_ignore` (line 52). -/
def extensions_to_ignore : List String := [".js", ".css", ".json"]

/-- Model of `is_html_page` (lines 42-53): true when none of the asset extensions
occurs as a substring anywhere in the URL string. -/
def is_html_page (url : String) : Bool :=
  !(extensions_to_ignore.any (fun ext => str_contains url ext))

/-- Model of `ignored_headers` (lines 19-22). -/
def ignored_headers : List String :=
  ["content-length", "age", "date", "etag", "last-modified", "expires", "keep-alive"]

/-- Python's `str.lower()`, modelled character-wise (HTTP header names are
ASCII, where the two agree). -/
def str_lower (s : String) : String := ⟨s.data.map Char.toLower⟩

/-- The external page-driver collaborator (Playwright), as a black box. -/
structure PageDriver where
  fetch : Url → Option (List Url)
  responses : Url → List (String × String)

/-- The shared mutable module-level state of the script: `visited_urls`
(kept as its insertion trace), `discovered_urls` (insertion-ordered set),
`response_headers` (insertion-ordered dict as an association list), the
FIFO `url_queue`, and the queue's unfinished-task counter. -/
structure CrawlState where
  visited : List Url
  discovered : List Url
  headers : List (String × String)
  queue : List Url
  pending : Nat
deriving DecidableEq, Repr

/-- Python dict assignment `m[k] = v`: update the entry for `k` in place if
present (exact key match), else append. -/
def dict_set (m : List (String × String)) (k v : String) : List (String × String) :=
  match m with
  | [] => [(k, v)]
  | (k', v') :: rest => if k' = k then (k, v) :: rest else (k', v') :: dict_set rest k v

/-- The body of the loop in `handle_response` (lines 87-91): drop the pair
when the lower-cased name is in `ignored_headers`, else store it under the
name exactly as received. -/
def record_header (m : List (String × String)) (hv : String × String) :
    List (String × String) :=
  if str_lower hv.1 ∈ ignored_headers then m else dict_set m hv.1 hv.2

/-- Model of `handle_response` (lines 79-91) applied to every response received while
one page loads. -/
def handle_response (m : List (String × String)) (headers : List (String × String)) :
    List (String × String) :=
  headers.foldl record_header m

/-- The guard at line 101:
`url in visited_urls or (max_requests and len(visited_urls) >= max_requests)`.
`max_requests` is `None` or an `int`; Python truthiness makes the budget
conjunct `False` when it is `None` *or* `0`. -/
def skip_check (max_requests : Option Int) (s : CrawlState) (url : Url) : Bool :=
  decide (url ∈ s.visited) ||
    (match max_requests with
     | none => false
     | some n => decide (n ≠ 0) && decide ((s.visited.length : Int) ≥ n))

/-- The budget part of the guard at line 122:
`not max_requests or len(visited_urls) < max_requests`, as a function of
`len(visited_urls)`; again `not 0` is `True`. -/
def budget_allows (max_requests : Option Int) (visited_count : Nat) : Bool :=
  match max_requests with
  | none => true
  | some n => decide (n = 0) || decide ((visited_count : Int) < n)

/-- Model of `extract_links` (lines 55-77): the set of absolute URLs on the page that
are not already visited.  The driver supplies the `urljoin`-resolved URLs;
building the Python `set` is modelled by filtering then removing duplicates
(first occurrence kept). -/
def extract_links (visited : List Url) (raw : List Url) : List Url :=
  (raw.filter (fun l => decide (l ∉ visited))).dedup

/-- The body of the `for link in new_links` loop (lines 119-125): keep the
link when its netloc equals the current page's netloc; if it is unvisited
and the budget allows, `put` it on the queue (incrementing the unfinished
counter) and, when `is_html_page` accepts it, add it to `discovered_urls`. -/
def process_link (max_requests : Option Int) (url : Url) (s : CrawlState) (link : Url) :
    CrawlState :=
  if link.netloc = url.netloc then
    if decide (link ∉ s.visited) && budget_allows max_requests s.visited.length then
      let s1 : CrawlState := { s with queue := s.queue ++ [link], pending := s.pending + 1 }
      if is_html_page link.str then
        if link ∈ s1.discovered then s1 else { s1 with discovered := s1.discovered ++ [link] }
      else s1
    else s
  else s

/-- Model of `crawl_page` (lines 93-129): skip when visited or over budget; else
insert into `visited_urls`, record the headers seen while loading, and if
navigation succeeded process each extracted link.  On navigation failure
(`fetch = none`) no links are enqueued; the `finally` accounting is in the
caller (`worker`). -/
def crawl_page (d : PageDriver) (max_requests : Option Int) (s : CrawlState) (url : Url) :
    CrawlState :=
  if skip_check max_requests s url then s
  else
    let s1 : CrawlState := { s with visited := s.visited ++ [url] }
    let s2 : CrawlState := { s1 with headers := handle_response s1.headers (d.responses url) }
    match d.fetch url with
    | none => s2
    | some raw => (extract_links s2.visited raw).foldl (process_link max_requests url) s2

/-- Model of `url_queue.task_done()`: decrement the unfinished-task counter. -/
def task_done (s : CrawlState) : CrawlState := { s with pending := s.pending - 1 }

/-- The worker body for one dequeued item (lines 138-144); `none` is the
shutdown sentinel.  Returns the new state and whether the loop breaks. -/
def worker_step (d : PageDriver) (max_requests : Option Int) (s : CrawlState)
    (item : Option Url) : CrawlState × Bool :=
  match item with
  | none => (task_done s, true)
  | some url => (task_done (crawl_page d max_requests s url), false)

/-- The crawl loop: the sequence of worker iterations against the shared
state, in FIFO dequeue order, with `fuel` iterations available.  When the
queue is empty no worker can proceed and the state is stable. -/
def run_crawl (d : PageDriver) (max_requests : Option Int) : Nat → CrawlState → CrawlState
  | 0, s => s
  | fuel + 1, s =>
    match s.queue with
    | [] => s
    | u :: rest =>
      run_crawl d max_requests fuel
        (task_done (crawl_page d max_requests { s with queue := rest } u))

/-- The state after `await url_queue.put(start_url)` (line 159): everything
empty, the seed queued, one unfinished task. -/
def init_state (seed : Url) : CrawlState :=
  { visited := [], discovered := [], headers := [], queue := [seed], pending := 1 }

/-- Model of `url_queue.join()` (line 166): it returns exactly when the queue is empty and
every dequeued item has been marked done. -/
def join_returns (s : CrawlState) : Prop := s.queue = [] ∧ s.pending = 0

/-- The orchestration steps of `main` (lines 157-172), in program order. -/
inductive OrchAction where
  | launch_browser
  | enqueue_seed
  | spawn_worker
  | queue_join
  | put_sentinel
  | cancel_task
  | await_worker_exit
  | close_browser
deriving DecidableEq, Repr

/-- Model of `range(10)` at line 162: the fixed worker-pool size. -/
def num_workers : Nat := 10

/-- The action trace of `main` (lines 157-172): launch the browser, enqueue
the seed, spawn the pool, block on `join`, then `task.cancel()` each worker
task and close the browser.  No sentinel is ever put on the queue and the
cancelled tasks are not awaited. -/
def main_actions : List OrchAction :=
  [.launch_browser, .enqueue_seed] ++ List.replicate num_workers .spawn_worker
    ++ [.queue_join] ++ List.replicate num_workers .cancel_task ++ [.close_browser]

/-- The resource and navigation actions `crawl_page` performs for one URL
(lines 101-129): nothing when the skip guard fires; otherwise a context and
page are created, navigation runs (cut short when `fetch` fails), and the
`finally` block closes the page.  The source never calls `context.close()`. -/
inductive PageAction where
  | new_context
  | new_page
  | goto
  | wait_networkidle
  | evaluate_scroll
  | wait_timeout
  | page_close
  | context_close
deriving DecidableEq, Repr

/-- The action list of one `crawl_page` call, per the branch taken. -/
def crawl_page_actions (d : PageDriver) (max_requests : Option Int) (s : CrawlState)
    (url : Url) : List PageAction :=
  if skip_check max_requests s url then []
  else
    [.new_context, .new_page] ++
      (match d.fetch url with
       | none => [.goto]
       | some _ => [.goto, .wait_networkidle, .evaluate_scroll, .wait_timeout]) ++
      [.page_close]

/-- The `__main__` glue (lines 174-217): exit code 1 on a missing seed
argument or a bad `--max-requests` value, else run the crawl and return the
JSON payload (discovered URLs and header map); falling off the end of the
script is exit code 0, modelled by `.ok`.  `urlparse0` stands for the
stdlib resolution of the seed string to its components. -/
def script_main (d : PageDriver) (urlparse0 : String → Url) (argv : List String)
    (fuel : Nat) : Except Int (List Url × List (String × String)) :=
  if argv.length < 2 then .error 1
  else
    match argv.get? 1 with
    | none => .error 1
    | some start_url =>
      let parsed_max : Except Int (Option Int) :=
        if "--max-requests" ∈ argv then
          match argv.get? (argv.indexOf "--max-requests" + 1) with
          | none => .error 1
          | some v =>
            match v.toInt? with
            | none => .error 1
            | some n => .ok (some n)
        else .ok none
      match parsed_max with
      | .error c => .error c
      | .ok max_requests =>
        let final := run_crawl d max_requests fuel (init_state (urlparse0 start_url))
        .ok (final.discovered, final.headers)

/-- One link hop as the crawler follows it: `v` is extracted from `u`'s
rendered page and shares `u`'s netloc. -/
def Edge (d : PageDriver) (u v : Url) : Prop :=
  ∃ ls, d.fetch u = some ls ∧ v ∈ ls ∧ v.netloc = u.netloc

/-- Reachability from the seed through extracted same-netloc links. -/
inductive Reaches (d : PageDriver) (seed : Url) : Url → Prop
  | refl : Reaches d seed seed
  | step {u v : Url} : Reaches d seed u → Edge d u v → Reaches d seed v

/-- A nonempty chain of link hops. -/
inductive ReachesPlus (d : PageDriver) : Url → Url → Prop
  | single {u v : Url} : Edge d u v → ReachesPlus d u v
  | tail {u v w : Url} : ReachesPlus d u v → Edge d v w → ReachesPlus d u w

/-- The link graph has no cycle. -/
def Acyclic (d : PageDriver) : Prop := ∀ u, ¬ ReachesPlus d u u

/-- Spec-side notion (for comparison with the code): same origin means same
scheme, host and port, i.e. same `scheme` and same `netloc`. -/
def same_origin_spec (u v : Url) : Prop := u.scheme = v.scheme ∧ u.netloc = v.netloc

/-- Spec-side notion (for comparison with the code): the URL's *path ends
in* one of the asset extensions (character-wise suffix of the path). -/
def path_ends_in_asset (u : Url) : Bool :=
  extensions_to_ignore.any (fun ext => decide (ext.toList <:+ u.path.toList))

/-- The test a link must pass at lines 121-122 to be enqueued, as a function
of the visited set at that moment (the link loop never changes
`visited_urls`, so the test is constant across one page's links). -/
def enq_cond (max_requests : Option Int) (url : Url) (visited : List Url) (link : Url) :
    Bool :=
  decide (link.netloc = url.netloc) &&
    (decide (link ∉ visited) && budget_allows max_requests visited.length)

/-- The links one `crawl_page` call puts on the queue, in order: nothing on
a skip or a failed navigation, otherwise the extracted links that pass the
netloc, visited and budget tests against the visited set that already
contains `url`. -/
def new_links (d : PageDriver) (max_requests : Option Int) (s : CrawlState) (url : Url) :
    List Url :=
  if skip_check max_requests s url then []
  else
    match d.fetch url with
    | none => []
    | some raw =>
      (extract_links (s.visited ++ [url]) raw).filter
        (enq_cond max_requests url (s.visited ++ [url]))

/-! ### Concrete pages and drivers used by the witnesses and counterexamples -/

def seedX : Url := ⟨"https", "x.test", "/", ""⟩
def httpA : Url := ⟨"http", "x.test", "/a", ""⟩
def ajsp : Url := ⟨"https", "x.test", "/a.jsp", ""⟩
def ahtml : Url := ⟨"https", "x.test", "/a.html", ""⟩
def bjs : Url := ⟨"https", "x.test", "/b.js", ""⟩
def crossC : Url := ⟨"https", "other.test", "/c", ""⟩

/-- Scenario-A-like driver: the seed page carries a page link, a script
asset, a cross-host link, a same-host link with the other scheme, and a
`.jsp` page; every other page has no links; no responses are observed. -/
def drvA : PageDriver :=
  ⟨fun u => if u = seedX then some [ahtml, bjs, crossC, httpA, ajsp] else some [],
   fun _ => []⟩

def urlS : Url := ⟨"https", "x.test", "/s", ""⟩
def urlA : Url := ⟨"https", "x.test", "/a", ""⟩
def urlB : Url := ⟨"https", "x.test", "/b", ""⟩
def urlC : Url := ⟨"https", "x.test", "/c", ""⟩

/-- Diamond link graph: `/s` links to `/a` and `/b`, each of which links to
`/c`. -/
def drvD : PageDriver :=
  ⟨fun u =>
      if u = urlS then some [urlA, urlB]
      else if u = urlA then some [urlC]
      else if u = urlB then some [urlC]
      else some [],
   fun _ => []⟩

def seedW : Url := ⟨"https", "w.test", "/", ""⟩
def pageW : Url := ⟨"http", "w.test", "/a.html", ""⟩

/-- Two-page acyclic graph whose single link keeps the netloc but switches
scheme. -/
def drvW : PageDriver :=
  ⟨fun u => if u = seedW then some [pageW] else some [], fun _ => []⟩

/-- A finite universe containing every URL `drvW` can produce. -/
def univW : List Url := [seedW, pageW]

/-- A driver for which every navigation fails before delivering a response
or a link. -/
def drvFail : PageDriver := ⟨fun _ => none, fun _ => []⟩

def seedF : Url := ⟨"https", "f.test", "/", ""⟩

/-- Stand-in for the stdlib resolution of the seed string in the script
model. -/
def urlparseF : String → Url := fun _ => seedF

/-- Termination measure for the crawl loop over a finite URL universe `U`:
the number of URLs still crawlable weighted against the queue length. -/
def crawl_measure (U : List Url) (s : CrawlState) : Nat :=
  (U.toFinset.card + 1 - s.visited.length) * (U.toFinset.card + 1) + s.queue.length

/-- Loop invariant for the completeness argument (budget `None`): the seed
has been crawled, every visited or queued URL is reachable, every link out
of a visited page is visited or queued, and the discovered set is exactly
the non-seed page-like part of visited-or-queued. -/
def ReachInv (d : PageDriver) (seed : Url) (s : CrawlState) : Prop :=
  seed ∈ s.visited ∧
  (∀ v ∈ s.visited, Reaches d seed v) ∧
  (∀ v ∈ s.queue, Reaches d seed v) ∧
  (∀ u ∈ s.visited, ∀ w, Edge d u w → w ∈ s.visited ∨ w ∈ s.queue) ∧
  (∀ v : Url, v ∈ s.discovered ↔
    ((v ∈ s.visited ∨ v ∈ s.queue) ∧ v ≠ seed ∧ is_html_page v.str = true))

/-! ### Header-map lemmas -/

theorem dict_set_mem_keys (m : List (String × String)) (k v k' : String) :
    k' ∈ (dict_set m k v).map Prod.fst ↔ k' ∈ m.map Prod.fst ∨ k' = k := by
  induction m with
  | nil => simp [dict_set]
  | cons hd tl ih =>
    obtain ⟨hk, hv⟩ := hd
    by_cases h : hk = k
    · subst h
      simp [dict_set]
      tauto
    · simp [dict_set, h, ih]
      tauto

theorem record_header_keys (m : List (String × String)) (e : String × String) (k : String) :
    k ∈ (record_header m e).map Prod.fst ↔
      k ∈ m.map Prod.fst ∨ (k = e.1 ∧ str_lower k ∉ ignored_headers) := by
  unfold record_header
  by_cases h : str_lower e.1 ∈ ignored_headers
  · simp only [if_pos h]
    constructor
    · exact Or.inl
    · rintro (hm | ⟨rfl, hig⟩)
      · exact hm
      · exact absurd h hig
  · simp only [if_neg h, dict_set_mem_keys]
    constructor
    · rintro (hm | rfl)
      · exact Or.inl hm
      · exact Or.inr ⟨rfl, h⟩
    · rintro (hm | ⟨rfl, _⟩)
      · exact Or.inl hm
      · exact Or.inr rfl

theorem handle_response_keys (events : List (String × String)) :
    ∀ (m : List (String × String)) (k : String),
      k ∈ (handle_response m events).map Prod.fst ↔
        k ∈ m.map Prod.fst ∨ ((∃ v, (k, v) ∈ events) ∧ str_lower k ∉ ignored_headers) := by
  induction events with
  | nil => simp [handle_response]
  | cons e rest ih =>
    intro m k
    have step : handle_response m (e :: rest) = handle_response (record_header m e) rest := rfl
    rw [step, ih, record_header_keys]
    constructor
    · rintro ((hm | ⟨rfl, hig⟩) | ⟨⟨v, hv⟩, hig⟩)
      · exact Or.inl hm
      · exact Or.inr ⟨⟨e.2, by simp⟩, hig⟩
      · exact Or.inr ⟨⟨v, List.mem_cons_of_mem _ hv⟩, hig⟩
    · rintro (hm | ⟨⟨v, hv⟩, hig⟩)
      · exact Or.inl (Or.inl hm)
      · rcases List.mem_cons.mp hv with he | hr
        · exact Or.inl (Or.inr ⟨congrArg Prod.fst he, hig⟩)
        · exact Or.inr ⟨⟨v, hr⟩, hig⟩

/-! ### `process_link` characterization -/

theorem process_link_eq (m : Option Int) (url : Url) (s : CrawlState) (link : Url) :
    process_link m url s link =
      if enq_cond m url s.visited link then
        { s with
            queue := s.queue ++ [link],
            pending := s.pending + 1,
            discovered :=
              if is_html_page link.str = true ∧ link ∉ s.discovered then
                s.discovered ++ [link]
              else s.discovered }
      else s := by
  unfold process_link enq_cond
  by_cases h1 : link.netloc = url.netloc
  · by_cases h2 : link ∉ s.visited
    · cases h3 : budget_allows m s.visited.length
      · simp [h1, h2, h3]
      · by_cases h4 : is_html_page link.str = true
        · by_cases h5 : link ∈ s.discovered
          · simp [h1, h2, h3, h4, h5]
          · simp [h1, h2, h3, h4, h5]
        · simp [h1, h2, h3, h4]
    · simp [h1, h2]
  · simp [h1]

theorem process_link_visited (m : Option Int) (url : Url) (s : CrawlState) (link : Url) :
    (process_link m url s link).visited = s.visited := by
  rw [process_link_eq]
  split <;> rfl

theorem process_link_headers (m : Option Int) (url : Url) (s : CrawlState) (link : Url) :
    (process_link m url s link).headers = s.headers := by
  rw [process_link_eq]
  split <;> rfl

theorem process_link_queue (m : Option Int) (url : Url) (s : CrawlState) (link : Url) :
    (process_link m url s link).queue =
      s.queue ++ (if enq_cond m url s.visited link then [link] else []) := by
  rw [process_link_eq]
  split
  · rfl
  · simp

theorem process_link_pending (m : Option Int) (url : Url) (s : CrawlState) (link : Url) :
    (process_link m url s link).pending =
      s.pending + (if enq_cond m url s.visited link then 1 else 0) := by
  rw [process_link_eq]
  split <;> simp

theorem process_link_discovered (m : Option Int) (url : Url) (s : CrawlState) (link : Url)
    (v : Url) :
    v ∈ (process_link m url s link).discovered ↔
      v ∈ s.discovered ∨
        (enq_cond m url s.visited link = true ∧ v = link ∧
          is_html_page link.str = true) := by
  rw [process_link_eq]
  by_cases h : enq_cond m url s.visited link
  · simp only [if_pos h]
    by_cases h4 : is_html_page link.str = true
    · by_cases h5 : link ∈ s.discovered
      · simp only [h4, h5]
        simp [h, h4]
        rintro rfl
        exact h5
      · simp only [h4, h5]
        simp [h, h4]
    · simp [h, h4]
  · simp [h]

/-! ### The link loop as a whole -/

theorem foldl_process_link (m : Option Int) (url : Url) :
    ∀ (ls : List Url) (s : CrawlState),
      (ls.foldl (process_link m url) s).visited = s.visited ∧
      (ls.foldl (process_link m url) s).headers = s.headers ∧
      (ls.foldl (process_link m url) s).queue =
        s.queue ++ ls.filter (enq_cond m url s.visited) ∧
      (ls.foldl (process_link m url) s).pending =
        s.pending + (ls.filter (enq_cond m url s.visited)).length ∧
      ∀ v : Url,
        v ∈ (ls.foldl (process_link m url) s).discovered ↔
          v ∈ s.discovered ∨
            (v ∈ ls.filter (enq_cond m url s.visited) ∧ is_html_page v.str = true) := by
  intro ls
  induction ls with
  | nil => intro s; simp
  | cons l rest ih =>
    intro s
    have hfold : (l :: rest).foldl (process_link m url) s
        = rest.foldl (process_link m url) (process_link m url s l) := rfl
    obtain ⟨iv, ihd, iq, ip, idisc⟩ := ih (process_link m url s l)
    rw [hfold]
    have hv : (process_link m url s l).visited = s.visited := process_link_visited ..
    rw [hv] at iq ip idisc
    refine ⟨by rw [iv, hv], by rw [ihd, process_link_headers], ?_, ?_, ?_⟩
    · rw [iq, process_link_queue]
      by_cases hc : enq_cond m url s.visited l
      · simp [List.filter_cons, hc]
      · simp [List.filter_cons, hc]
    · rw [ip, process_link_pending]
      by_cases hc : enq_cond m url s.visited l
      · simp [List.filter_cons, hc]
        omega
      · simp [List.filter_cons, hc]
    · intro v
      rw [idisc v, process_link_discovered]
      by_cases hc : enq_cond m url s.visited l
      · simp only [List.filter_cons, if_pos hc, List.mem_cons]
        constructor
        · rintro ((hm | ⟨_, rfl, hh⟩) | ⟨hmem, hh⟩)
          · exact Or.inl hm
          · exact Or.inr ⟨Or.inl rfl, hh⟩
          · exact Or.inr ⟨Or.inr hmem, hh⟩
        · rintro (hm | ⟨(rfl | hmem), hh⟩)
          · exact Or.inl (Or.inl hm)
          · exact Or.inl (Or.inr ⟨hc, rfl, hh⟩)
          · exact Or.inr ⟨hmem, hh⟩
      · simp only [List.filter_cons]
        simp [hc]

/-! ### `crawl_page` characterization -/

theorem crawl_page_of_skip (d : PageDriver) (m : Option Int) (s : CrawlState) (url : Url)
    (h : skip_check m s url = true) : crawl_page d m s url = s := by
  unfold crawl_page
  rw [if_pos h]

theorem new_links_of_skip (d : PageDriver) (m : Option Int) (s : CrawlState) (url : Url)
    (h : skip_check m s url = true) : new_links d m s url = [] := by
  unfold new_links
  rw [if_pos h]

theorem crawl_page_def (d : PageDriver) (m : Option Int) (s : CrawlState) (url : Url)
    (h : skip_check m s url = false) :
    crawl_page d m s url =
      (match d.fetch url with
       | none =>
         { s with visited := s.visited ++ [url],
                  headers := handle_response s.headers (d.responses url) }
       | some raw =>
         (extract_links (s.visited ++ [url]) raw).foldl (process_link m url)
           { s with visited := s.visited ++ [url],
                    headers := handle_response s.headers (d.responses url) }) := by
  unfold crawl_page
  rw [if_neg (by simp [h])]

theorem crawl_page_eq (d : PageDriver) (m : Option Int) (s : CrawlState) (url : Url)
    (h : skip_check m s url = false) :
    (crawl_page d m s url).visited = s.visited ++ [url] ∧
    (crawl_page d m s url).headers = handle_response s.headers (d.responses url) ∧
    (crawl_page d m s url).queue = s.queue ++ new_links d m s url ∧
    (crawl_page d m s url).pending = s.pending + (new_links d m s url).length ∧
    ∀ v : Url,
      v ∈ (crawl_page d m s url).discovered ↔
        v ∈ s.discovered ∨ (v ∈ new_links d m s url ∧ is_html_page v.str = true) := by
  rw [crawl_page_def d m s url h]
  unfold new_links
  rw [if_neg (by simp [h])]
  cases hf : d.fetch url with
  | none => simp
  | some raw =>
    obtain ⟨iv, ihd, iq, ip, idisc⟩ :=
      foldl_process_link m url (extract_links (s.visited ++ [url]) raw)
        { s with visited := s.visited ++ [url],
                 headers := handle_response s.headers (d.responses url) }
    exact ⟨iv, ihd, iq, ip, idisc⟩

theorem crawl_page_queue (d : PageDriver) (m : Option Int) (s : CrawlState) (url : Url) :
    (crawl_page d m s url).queue = s.queue ++ new_links d m s url := by
  cases hsk : skip_check m s url with
  | false => exact (crawl_page_eq d m s url hsk).2.2.1
  | true =>
    rw [crawl_page_of_skip d m s url hsk, new_links_of_skip d m s url hsk]
    simp

theorem crawl_page_pending (d : PageDriver) (m : Option Int) (s : CrawlState) (url : Url) :
    (crawl_page d m s url).pending = s.pending + (new_links d m s url).length := by
  cases hsk : skip_check m s url with
  | false => exact (crawl_page_eq d m s url hsk).2.2.2.1
  | true =>
    rw [crawl_page_of_skip d m s url hsk, new_links_of_skip d m s url hsk]
    simp

theorem crawl_page_discovered (d : PageDriver) (m : Option Int) (s : CrawlState) (url : Url)
    (v : Url) :
    v ∈ (crawl_page d m s url).discovered ↔
      v ∈ s.discovered ∨ (v ∈ new_links d m s url ∧ is_html_page v.str = true) := by
  cases hsk : skip_check m s url with
  | false => exact (crawl_page_eq d m s url hsk).2.2.2.2 v
  | true =>
    rw [crawl_page_of_skip d m s url hsk, new_links_of_skip d m s url hsk]
    simp

/-! ### Properties of the enqueued links -/

theorem extract_links_mem (visited raw : List Url) (v : Url) :
    v ∈ extract_links visited raw ↔ v ∈ raw ∧ v ∉ visited := by
  unfold extract_links
  simp [List.mem_dedup, List.mem_filter]

theorem new_links_spec (d : PageDriver) (m : Option Int) (s : CrawlState) (url : Url)
    (v : Url) (hv : v ∈ new_links d m s url) :
    v.netloc = url.netloc ∧ v ∉ s.visited ++ [url] ∧ Edge d url v := by
  unfold new_links at hv
  by_cases hsk : skip_check m s url = true
  · rw [if_pos hsk] at hv
    simp at hv
  · rw [if_neg hsk] at hv
    cases hf : d.fetch url with
    | none =>
      rw [hf] at hv
      simp at hv
    | some raw =>
      rw [hf] at hv
      obtain ⟨hmem, hcond⟩ := List.mem_filter.mp hv
      obtain ⟨hraw, hnotvis⟩ := (extract_links_mem _ _ _).mp hmem
      unfold enq_cond at hcond
      simp only [Bool.and_eq_true, decide_eq_true_eq] at hcond
      exact ⟨hcond.1, hnotvis, ⟨raw, hf, hraw, hcond.1⟩⟩

theorem new_links_complete (d : PageDriver) (s : CrawlState) (url : Url)
    (h : skip_check none s url = false) (v : Url) (hE : Edge d url v)
    (hv : v ∉ s.visited ++ [url]) : v ∈ new_links d none s url := by
  obtain ⟨ls, hf, hmem, hn⟩ := hE
  unfold new_links
  rw [if_neg (by simp [h]), hf]
  refine List.mem_filter.mpr ⟨(extract_links_mem _ _ _).mpr ⟨hmem, hv⟩, ?_⟩
  unfold enq_cond budget_allows
  simp [hn, hv]

theorem new_links_nodup (d : PageDriver) (m : Option Int) (s : CrawlState) (url : Url) :
    (new_links d m s url).Nodup := by
  unfold new_links
  by_cases hsk : skip_check m s url = true
  · rw [if_pos hsk]
    exact List.nodup_nil
  · rw [if_neg hsk]
    cases hf : d.fetch url with
    | none => exact List.nodup_nil
    | some raw => exact (List.nodup_dedup _).filter _

/-! ### The crawl loop -/

theorem run_crawl_queue_nil (d : PageDriver) (m : Option Int) (fuel : Nat) (s : CrawlState)
    (h : s.queue = []) : run_crawl d m fuel s = s := by
  cases fuel with
  | zero => rfl
  | succ n => simp [run_crawl, h]

theorem run_crawl_succ (d : PageDriver) (m : Option Int) (n : Nat) (s : CrawlState)
    (u : Url) (rest : List Url) (h : s.queue = u :: rest) :
    run_crawl d m (n + 1) s =
      run_crawl d m n (task_done (crawl_page d m { s with queue := rest } u)) := by
  simp [run_crawl, h]

theorem run_crawl_invariant (d : PageDriver) (m : Option Int) (P : CrawlState → Prop)
    (hstep : ∀ s u rest, s.queue = u :: rest → P s →
      P (task_done (crawl_page d m { s with queue := rest } u))) :
    ∀ (fuel : Nat) (s : CrawlState), P s → P (run_crawl d m fuel s) := by
  intro fuel
  induction fuel with
  | zero => exact fun s h => h
  | succ n ih =>
    intro s h
    cases hq : s.queue with
    | nil =>
      rw [run_crawl_queue_nil d m _ s hq]
      exact h
    | cons u rest =>
      rw [run_crawl_succ d m n s u rest hq]
      exact ih _ (hstep s u rest hq h)

theorem run_crawl_add (d : PageDriver) (m : Option Int) :
    ∀ (f g : Nat) (s : CrawlState),
      run_crawl d m (f + g) s = run_crawl d m g (run_crawl d m f s) := by
  intro f
  induction f with
  | zero =>
    intro g s
    rw [Nat.zero_add]
    rfl
  | succ n ih =>
    intro g s
    cases hq : s.queue with
    | nil =>
      rw [run_crawl_queue_nil d m (n + 1 + g) s hq, run_crawl_queue_nil d m (n + 1) s hq,
        run_crawl_queue_nil d m g s hq]
    | cons u rest =>
      have h1 : n + 1 + g = (n + g) + 1 := by omega
      rw [h1, run_crawl_succ d m (n + g) s u rest hq, run_crawl_succ d m n s u rest hq, ih]

theorem run_crawl_pending (d : PageDriver) (m : Option Int) (fuel : Nat) (s : CrawlState)
    (h : s.pending = s.queue.length) :
    (run_crawl d m fuel s).pending = (run_crawl d m fuel s).queue.length := by
  have := run_crawl_invariant d m (fun t => t.pending = t.queue.length) ?_ fuel s h
  · exact this
  · intro t u rest hq hp
    unfold task_done
    rw [crawl_page_pending, crawl_page_queue]
    simp only []
    rw [hq] at hp
    simp at hp ⊢
    omega

theorem task_done_visited (s : CrawlState) : (task_done s).visited = s.visited := rfl

theorem task_done_queue (s : CrawlState) : (task_done s).queue = s.queue := rfl

theorem task_done_discovered (s : CrawlState) : (task_done s).discovered = s.discovered := rfl

theorem task_done_headers (s : CrawlState) : (task_done s).headers = s.headers := rfl

theorem skip_check_false_not_visited {m : Option Int} {s : CrawlState} {url : Url}
    (h : skip_check m s url = false) : url ∉ s.visited := by
  intro hmem
  unfold skip_check at h
  rw [decide_eq_true hmem] at h
  simp at h

theorem skip_check_true_of_visited {m : Option Int} {s : CrawlState} {url : Url}
    (h : url ∈ s.visited) : skip_check m s url = true := by
  unfold skip_check
  rw [decide_eq_true h]
  simp

/-! ### Termination -/

theorem nodup_subset_length_le (l U : List Url) (hn : l.Nodup) (hsub : ∀ v ∈ l, v ∈ U) :
    l.length ≤ U.toFinset.card := by
  have h1 : l.toFinset.card = l.length := List.toFinset_card_of_nodup hn
  have h2 : l.toFinset ⊆ U.toFinset := by
    intro x hx
    rw [List.mem_toFinset] at hx ⊢
    exact hsub x hx
  rw [← h1]
  exact Finset.card_le_card h2

theorem measure_step_le (C lv rl nl : Nat) (h1 : lv + 1 ≤ C) (h2 : nl ≤ C) :
    (C + 1 - (lv + 1)) * (C + 1) + (rl + nl) + 2 ≤ (C + 1 - lv) * (C + 1) + (rl + 1) := by
  have e0 : C + 1 - lv = (C - lv) + 1 := by omega
  have e1 : C + 1 - (lv + 1) = C - lv := by omega
  rw [e0, e1, Nat.succ_mul]
  have h3 : rl + nl + 2 ≤ C + 1 + (rl + 1) := by omega
  calc (C - lv) * (C + 1) + (rl + nl) + 2
      = (C - lv) * (C + 1) + (rl + nl + 2) := by ring
    _ ≤ (C - lv) * (C + 1) + (C + 1 + (rl + 1)) := Nat.add_le_add_left h3 _
    _ = (C - lv) * (C + 1) + (C + 1) + (rl + 1) := by ring

theorem run_crawl_terminates (d : PageDriver) (m : Option Int) (U : List Url)
    (hcl : ∀ u ls, d.fetch u = some ls → ∀ v ∈ ls, v ∈ U) :
    ∀ s : CrawlState, s.visited.Nodup → (∀ v ∈ s.visited, v ∈ U) →
      (∀ v ∈ s.queue, v ∈ U) →
      ∃ fuel : Nat, (run_crawl d m fuel s).queue = [] := by
  suffices h : ∀ (N : Nat) (s : CrawlState), s.visited.Nodup → (∀ v ∈ s.visited, v ∈ U) →
      (∀ v ∈ s.queue, v ∈ U) → crawl_measure U s ≤ N →
      ∃ fuel : Nat, (run_crawl d m fuel s).queue = [] by
    exact fun s h1 h2 h3 => h (crawl_measure U s) s h1 h2 h3 le_rfl
  intro N
  induction N with
  | zero =>
    intro s _ _ _ hm
    refine ⟨0, ?_⟩
    unfold crawl_measure at hm
    have hz : s.queue.length = 0 := by omega
    exact List.length_eq_zero.mp hz
  | succ n ih =>
    intro s h1 h2 h3 hm
    cases hq : s.queue with
    | nil => exact ⟨0, hq⟩
    | cons u rest =>
      have hrestU : ∀ v ∈ rest, v ∈ U := by
        intro v hv
        exact h3 v (by rw [hq]; exact List.mem_cons_of_mem _ hv)
      have huU : u ∈ U := h3 u (by rw [hq]; exact List.mem_cons_self u rest)
      cases hsk : skip_check m { s with queue := rest } u with
      | true =>
        have hcs : crawl_page d m { s with queue := rest } u = { s with queue := rest } :=
          crawl_page_of_skip d m _ u hsk
        have hm' : crawl_measure U (task_done (crawl_page d m { s with queue := rest } u)) ≤ n := by
          rw [hcs]
          unfold crawl_measure at hm ⊢
          rw [task_done_visited, task_done_queue]
          rw [hq] at hm
          simp at hm ⊢
          omega
        obtain ⟨f, hf⟩ := ih (task_done (crawl_page d m { s with queue := rest } u))
          (by rw [task_done_visited, hcs]; exact h1)
          (by rw [task_done_visited, hcs]; exact h2)
          (by rw [task_done_queue, hcs]; exact hrestU)
          hm'
        exact ⟨f + 1, by rw [run_crawl_succ d m f s u rest hq]; exact hf⟩
      | false =>
        have hcp := crawl_page_eq d m { s with queue := rest } u hsk
        have hnv : u ∉ s.visited := skip_check_false_not_visited hsk
        have h1' : (s.visited ++ [u]).Nodup := by
          simp [List.nodup_append, h1, hnv]
        have h2' : ∀ v ∈ s.visited ++ [u], v ∈ U := by
          intro v hv
          rcases List.mem_append.mp hv with hv | hv
          · exact h2 v hv
          · rw [List.mem_singleton.mp hv]
            exact huU
        have hnewU : ∀ v ∈ new_links d m { s with queue := rest } u, v ∈ U := by
          intro v hv
          obtain ⟨_, _, ls, hfl, hvls, _⟩ := new_links_spec d m _ u v hv
          exact hcl _ ls hfl v hvls
        have hlen1 : s.visited.length + 1 ≤ U.toFinset.card := by
          have := nodup_subset_length_le (s.visited ++ [u]) U h1' h2'
          simpa using this
        have hlenN : (new_links d m { s with queue := rest } u).length ≤ U.toFinset.card :=
          nodup_subset_length_le _ U (new_links_nodup d m _ u) hnewU
        have e2 : crawl_measure U (task_done (crawl_page d m { s with queue := rest } u)) =
            (U.toFinset.card + 1 - (s.visited.length + 1)) * (U.toFinset.card + 1) +
              (rest.length + (new_links d m { s with queue := rest } u).length) := by
          unfold crawl_measure
          rw [task_done_visited, task_done_queue, hcp.1, hcp.2.2.1]
          simp
        have e3 : crawl_measure U s =
            (U.toFinset.card + 1 - s.visited.length) * (U.toFinset.card + 1) +
              (rest.length + 1) := by
          unfold crawl_measure
          rw [hq]
          simp
        have hAB : crawl_measure U (task_done (crawl_page d m { s with queue := rest } u)) + 2 ≤
            crawl_measure U s := by
          rw [e2, e3]
          exact measure_step_le (U.toFinset.card) s.visited.length rest.length
            (new_links d m { s with queue := rest } u).length hlen1 hlenN
        have hm' : crawl_measure U (task_done (crawl_page d m { s with queue := rest } u)) ≤ n := by
          omega
        obtain ⟨f, hf⟩ := ih (task_done (crawl_page d m { s with queue := rest } u))
          (by rw [task_done_visited, hcp.1]; exact h1')
          (by rw [task_done_visited, hcp.1]; exact h2')
          (by
            rw [task_done_queue, hcp.2.2.1]
            intro v hv
            rcases List.mem_append.mp hv with hv | hv
            · exact hrestU v hv
            · exact hnewU v hv)
          hm'
        exact ⟨f + 1, by rw [run_crawl_succ d m f s u rest hq]; exact hf⟩

/-! ### The reachability invariant -/

theorem reach_inv_step (d : PageDriver) (seed : Url) (s : CrawlState) (u : Url)
    (rest : List Url) (hq : s.queue = u :: rest) (hinv : ReachInv d seed s) :
    ReachInv d seed (task_done (crawl_page d none { s with queue := rest } u)) := by
  obtain ⟨hseed, hvisR, hqR, hclosed, hdisc⟩ := hinv
  cases hsk : skip_check none { s with queue := rest } u with
  | true =>
    rw [crawl_page_of_skip d none _ u hsk]
    have hu : u ∈ s.visited := by
      unfold skip_check at hsk
      simp at hsk
      exact hsk
    refine ⟨hseed, hvisR, ?_, ?_, ?_⟩
    · intro v hv
      rw [task_done_queue] at hv
      exact hqR v (by rw [hq]; exact List.mem_cons_of_mem _ hv)
    · intro u' hu' w hw
      rw [task_done_visited] at hu'
      rw [task_done_visited, task_done_queue]
      rcases hclosed u' hu' w hw with h | h
      · exact Or.inl h
      · rw [hq] at h
        rcases List.mem_cons.mp h with rfl | h2
        · exact Or.inl hu
        · exact Or.inr h2
    · intro v
      rw [task_done_discovered, task_done_visited, task_done_queue]
      rw [hdisc v, hq]
      simp only [List.mem_cons]
      constructor
      · rintro ⟨(hm | rfl | hm), hS, hH⟩
        · exact ⟨Or.inl hm, hS, hH⟩
        · exact ⟨Or.inl hu, hS, hH⟩
        · exact ⟨Or.inr hm, hS, hH⟩
      · rintro ⟨(hm | hm), hS, hH⟩
        · exact ⟨Or.inl hm, hS, hH⟩
        · exact ⟨Or.inr (Or.inr hm), hS, hH⟩
  | false =>
    have hcp := crawl_page_eq d none { s with queue := rest } u hsk
    have hRu : Reaches d seed u := hqR u (by rw [hq]; exact List.mem_cons_self u rest)
    refine ⟨?_, ?_, ?_, ?_, ?_⟩
    · rw [task_done_visited, hcp.1]
      exact List.mem_append.mpr (Or.inl hseed)
    · intro v hv
      rw [task_done_visited, hcp.1] at hv
      rcases List.mem_append.mp hv with h | h
      · exact hvisR v h
      · rw [List.mem_singleton.mp h]
        exact hRu
    · intro v hv
      rw [task_done_queue, hcp.2.2.1] at hv
      rcases List.mem_append.mp hv with h | h
      · exact hqR v (by rw [hq]; exact List.mem_cons_of_mem _ h)
      · obtain ⟨_, _, hE⟩ := new_links_spec d none _ u v h
        exact Reaches.step hRu hE
    · intro u' hu' w hE
      rw [task_done_visited, hcp.1] at hu'
      rw [task_done_visited, hcp.1, task_done_queue, hcp.2.2.1]
      rcases List.mem_append.mp hu' with h | h
      · rcases hclosed u' h w hE with hw | hw
        · exact Or.inl (List.mem_append.mpr (Or.inl hw))
        · rw [hq] at hw
          rcases List.mem_cons.mp hw with rfl | hw2
          · exact Or.inl (List.mem_append.mpr (Or.inr (List.mem_singleton_self _)))
          · exact Or.inr (List.mem_append.mpr (Or.inl hw2))
      · have heq : u' = u := List.mem_singleton.mp h
        subst heq
        by_cases hwv : w ∈ s.visited ++ [u']
        · exact Or.inl hwv
        · exact Or.inr (List.mem_append.mpr
            (Or.inr (new_links_complete d _ u' hsk w hE hwv)))
    · intro v
      rw [task_done_discovered, task_done_visited, task_done_queue,
        hcp.1, hcp.2.2.1, hcp.2.2.2.2 v]
      have hnewS : v ∈ new_links d none { s with queue := rest } u → v ≠ seed := by
        intro hvnew heq
        obtain ⟨_, hnv, _⟩ := new_links_spec d none _ u v hvnew
        exact hnv (List.mem_append.mpr (Or.inl (heq ▸ hseed)))
      rw [hdisc v, hq]
      simp only [List.mem_append, List.mem_cons, List.not_mem_nil, or_false]
      tauto

theorem reach_inv_start (d : PageDriver) (seed : Url) :
    ReachInv d seed
      (task_done (crawl_page d none { init_state seed with queue := [] } seed)) := by
  have hsk : skip_check none { init_state seed with queue := [] } seed = false := by
    simp [skip_check, init_state]
  have hcp := crawl_page_eq d none { init_state seed with queue := [] } seed hsk
  have hvis : (crawl_page d none { init_state seed with queue := [] } seed).visited = [seed] := by
    rw [hcp.1]
    simp [init_state]
  have hque : (crawl_page d none { init_state seed with queue := [] } seed).queue =
      new_links d none { init_state seed with queue := [] } seed := by
    rw [hcp.2.2.1]
    simp [init_state]
  refine ⟨?_, ?_, ?_, ?_, ?_⟩
  · rw [task_done_visited, hvis]
    exact List.mem_singleton_self _
  · intro v hv
    rw [task_done_visited, hvis] at hv
    rw [List.mem_singleton.mp hv]
    exact Reaches.refl
  · intro v hv
    rw [task_done_queue, hque] at hv
    obtain ⟨_, _, hE⟩ := new_links_spec d none _ seed v hv
    exact Reaches.step Reaches.refl hE
  · intro u' hu' w hE
    rw [task_done_visited, hvis] at hu'
    rw [task_done_visited, hvis, task_done_queue, hque]
    rw [List.mem_singleton.mp hu'] at hE
    by_cases hwv : w = seed
    · exact Or.inl (by rw [hwv]; exact List.mem_singleton_self _)
    · refine Or.inr (new_links_complete d _ seed hsk w hE ?_)
      simp [init_state, hwv]
  · intro v
    rw [task_done_discovered, task_done_visited, task_done_queue, hvis, hque,
      hcp.2.2.2.2 v]
    have hnewS : v ∈ new_links d none { init_state seed with queue := [] } seed → v ≠ seed := by
      intro hvnew heq
      obtain ⟨_, hnv, _⟩ := new_links_spec d none _ seed v hvnew
      refine hnv ?_
      simp [init_state, heq]
    have hde : v ∉ ({ init_state seed with queue := [] } : CrawlState).discovered := by
      simp [init_state]
    simp only [List.mem_singleton]
    constructor
    · rintro (hin | ⟨hN, hH⟩)
      · exact absurd hin hde
      · exact ⟨Or.inr hN, hnewS hN, hH⟩
    · rintro ⟨(rfl | hN), hS, hH⟩
      · exact absurd rfl hS
      · exact Or.inr ⟨hN, hH⟩

theorem reaches_mem_visited (d : PageDriver) (seed : Url) (F : CrawlState)
    (hqnil : F.queue = []) (hinv : ReachInv d seed F) :
    ∀ v : Url, Reaches d seed v → v ∈ F.visited := by
  intro v hv
  induction hv with
  | refl => exact hinv.1
  | step hr hE ih =>
    rcases hinv.2.2.2.1 _ ih _ hE with h | h
    · exact h
    · rw [hqnil] at h
      cases h

/-! ### Suffix versus substring on URL strings -/

theorem str_contains_of_path_suffix (u : Url) (ext : String)
    (h : ext.toList <:+ u.path.toList) : str_contains u.str ext = true := by
  unfold str_contains
  rw [decide_eq_true_eq]
  have hstr : u.str.toList =
      (u.scheme.toList ++ "://".toList ++ u.netloc.toList) ++ u.path.toList ++
        u.query.toList := by
    simp [Url.str, String.toList]
  rw [hstr]
  refine h.isInfix.trans ?_
  exact ⟨u.scheme.toList ++ "://".toList ++ u.netloc.toList, u.query.toList, rfl⟩

theorem is_html_page_false_of_path_asset (u : Url) (h : path_ends_in_asset u = true) :
    is_html_page u.str = false := by
  unfold path_ends_in_asset at h
  rw [List.any_eq_true] at h
  obtain ⟨ext, hmem, hsuf⟩ := h
  rw [decide_eq_true_eq] at hsuf
  unfold is_html_page
  simp only [Bool.not_eq_false']
  exact List.any_eq_true.mpr ⟨ext, hmem, str_contains_of_path_suffix u ext hsuf⟩

theorem path_asset_false_of_html (u : Url) (h : is_html_page u.str = true) :
    path_ends_in_asset u = false := by
  cases hpe : path_ends_in_asset u with
  | false => rfl
  | true =>
    rw [is_html_page_false_of_path_asset u hpe] at h
    cases h

/-! ### Claim theorems -/

/-- Claim C1 (amended): every URL enqueued by `crawl_page` while processing
`u` — i.e. every member of the new queue that is not carried over — has the
same *netloc* (host and port) as `u`, and hence every URL ever queued in a
run shares the seed's netloc; the scheme is *not* compared (line 121 checks
`netloc` only). -/
theorem claim1_enqueue_same_netloc :
    (∀ (d : PageDriver) (m : Option Int) (s : CrawlState) (u v : Url),
        v ∈ (crawl_page d m s u).queue → v ∈ s.queue ∨ v.netloc = u.netloc) ∧
    (∀ (d : PageDriver) (m : Option Int) (seed : Url) (fuel : Nat) (v : Url),
        v ∈ (run_crawl d m fuel (init_state seed)).queue → v.netloc = seed.netloc) := by
  constructor
  · intro d m s u v hv
    rw [crawl_page_queue] at hv
    rcases List.mem_append.mp hv with h | h
    · exact Or.inl h
    · exact Or.inr (new_links_spec d m s u v h).1
  · intro d m seed fuel v hv
    refine run_crawl_invariant d m (fun t => ∀ w ∈ t.queue, w.netloc = seed.netloc)
      ?_ fuel (init_state seed) ?_ v hv
    · intro t u rest hq hP w hw
      rw [task_done_queue, crawl_page_queue] at hw
      rcases List.mem_append.mp hw with h | h
      · exact hP w (by rw [hq]; exact List.mem_cons_of_mem _ h)
      · rw [(new_links_spec d m _ u w h).1]
        exact hP u (by rw [hq]; exact List.mem_cons_self u rest)
    · intro w hw
      simp [init_state] at hw
      rw [hw]

/-- Counterexample to C1 as stated: from the seed
`https://x.test/` the link `http://x.test/a` is enqueued although its
scheme differs from the seed's, so enqueued URLs do not share the full
scheme+host+port origin of the page that discovered them. -/
theorem claim1_enqueue_origin_cex :
    httpA ∈ (run_crawl drvA none 1 (init_state seedX)).queue ∧
      httpA.scheme ≠ seedX.scheme ∧ ¬ same_origin_spec seedX httpA := by
  refine ⟨by decide, by decide, ?_⟩
  intro h
  exact absurd h.1 (by decide)

/-- Witness for C1: the amended theorem applied at a concrete run. -/
theorem claim1_enqueue_same_netloc_witness :
    httpA ∈ (run_crawl drvA none 1 (init_state seedX)).queue ∧
      httpA.netloc = seedX.netloc := by
  refine ⟨by decide, ?_⟩
  exact claim1_enqueue_same_netloc.2 drvA none seedX 1 httpA (by decide)

/-- Claim C2 (amended): one `crawl_page` call extends the queue by exactly
`new_links`, and a URL enters the Discovered Set iff it is among those
newly enqueued links and `is_html_page` accepts its *full URL string*,
i.e. none of `.js`, `.css`, `.json` occurs as a substring anywhere in it
(line 53 uses Python's `in`, not a path-suffix test).  Consequently a URL
whose path does end in an asset extension is never discovered, and every
URL in the final Discovered Set passes the substring filter. -/
theorem claim2_discovered_asset_filter :
    (∀ (d : PageDriver) (m : Option Int) (s : CrawlState) (u : Url),
        (crawl_page d m s u).queue = s.queue ++ new_links d m s u) ∧
    (∀ (d : PageDriver) (m : Option Int) (s : CrawlState) (u v : Url),
        v ∈ (crawl_page d m s u).discovered ↔
          v ∈ s.discovered ∨ (v ∈ new_links d m s u ∧ is_html_page v.str = true)) ∧
    (∀ v : Url, is_html_page v.str = true → path_ends_in_asset v = false) ∧
    (∀ (d : PageDriver) (m : Option Int) (seed : Url) (fuel : Nat) (v : Url),
        v ∈ (run_crawl d m fuel (init_state seed)).discovered →
          is_html_page v.str = true) := by
  refine ⟨crawl_page_queue, crawl_page_discovered, path_asset_false_of_html, ?_⟩
  intro d m seed fuel v hv
  refine run_crawl_invariant d m (fun t => ∀ w ∈ t.discovered, is_html_page w.str = true)
    ?_ fuel (init_state seed) ?_ v hv
  · intro t u rest hq hP w hw
    rw [task_done_discovered] at hw
    rcases (crawl_page_discovered d m _ u w).mp hw with h | h
    · exact hP w h
    · exact h.2
  · intro w hw
    simp [init_state] at hw

/-- Counterexample to C2 as stated: `https://x.test/a.jsp` is enqueued
and its path does not end in `.js`, `.css` or `.json`, yet it never enters
the Discovered Set, because `.js` occurs as a substring of the URL. -/
theorem claim2_discovered_asset_cex :
    ajsp ∈ (run_crawl drvA none 1 (init_state seedX)).queue ∧
      path_ends_in_asset ajsp = false ∧
      ajsp ∉ (run_crawl drvA none 10 (init_state seedX)).discovered := by
  decide

/-- Witness for C2: the amended theorem applied at a concrete run. -/
theorem claim2_discovered_asset_filter_witness :
    path_ends_in_asset ahtml = false ∧
      (ahtml ∈ (run_crawl drvA none 1 (init_state seedX)).discovered ∧
        is_html_page ahtml.str = true) := by
  refine ⟨claim2_discovered_asset_filter.2.2.1 ahtml (by decide), by decide, ?_⟩
  exact claim2_discovered_asset_filter.2.2.2 drvA none seedX 1 ahtml (by decide)

/-- Claim C3 (amended): after `join` returns, `main` delivers *no* shutdown
sentinel at all — it cancels each of the 10 worker tasks and closes the
browser without awaiting worker exit.  The worker's sentinel branch
(lines 140-142) would acknowledge with `task_done` and exit, but it is
never exercised. -/
theorem claim3_shutdown_by_cancellation :
    main_actions.count OrchAction.put_sentinel = 0 ∧
    main_actions.count OrchAction.cancel_task = num_workers ∧
    main_actions.count OrchAction.await_worker_exit = 0 ∧
    (∀ (d : PageDriver) (m : Option Int) (s : CrawlState),
        worker_step d m s none = (task_done s, true)) :=
  ⟨by decide, by decide, by decide, fun _ _ _ => rfl⟩

/-- Counterexample to C3 as stated: the orchestration trace of `main`
contains zero `put_sentinel` actions, not one per worker. -/
theorem claim3_shutdown_sentinel_cex :
    main_actions.count OrchAction.put_sentinel = 0 ∧ num_workers = 10 ∧
      main_actions.count OrchAction.put_sentinel ≠ num_workers := by
  decide

/-- Claim C4 (amended): for every configured budget `N ≥ 1` the Visited Set
never exceeds `N` URLs at any point of the run, and once it holds `N` URLs
`crawl_page` dispatches nothing (skip guard, line 101) and `process_link`
enqueues nothing (budget guard, line 122).  For `N = 0` the claim fails:
Python truthiness makes `0` behave as "no budget". -/
theorem claim4_budget_bound (n : Int) (hn : 1 ≤ n) :
    (∀ (d : PageDriver) (seed : Url) (fuel : Nat),
        ((run_crawl d (some n) fuel (init_state seed)).visited.length : Int) ≤ n) ∧
    (∀ (d : PageDriver) (s : CrawlState) (u : Url),
        n ≤ (s.visited.length : Int) → crawl_page d (some n) s u = s) ∧
    (∀ (url : Url) (s : CrawlState) (link : Url),
        n ≤ (s.visited.length : Int) → process_link (some n) url s link = s) := by
  have hskip : ∀ (s : CrawlState) (u : Url), n ≤ (s.visited.length : Int) →
      skip_check (some n) s u = true := by
    intro s u h
    show (decide (u ∈ s.visited) ||
      (decide (n ≠ 0) && decide ((s.visited.length : Int) ≥ n))) = true
    simp only [Bool.or_eq_true, Bool.and_eq_true, decide_eq_true_eq]
    exact Or.inr ⟨by omega, by omega⟩
  refine ⟨?_, ?_, ?_⟩
  · intro d seed fuel
    refine run_crawl_invariant d (some n) (fun t => ((t.visited.length : Int) ≤ n))
      ?_ fuel (init_state seed) (by simp [init_state]; omega)
    intro t u rest hq hP
    rw [task_done_visited]
    cases hsk : skip_check (some n) { t with queue := rest } u with
    | true =>
      rw [crawl_page_of_skip d (some n) _ u hsk]
      exact hP
    | false =>
      rw [(crawl_page_eq d (some n) _ u hsk).1]
      unfold skip_check at hsk
      simp only [Bool.or_eq_false_iff, Bool.and_eq_false_iff] at hsk
      have h2 := hsk.2
      rcases h2 with h2 | h2
      · simp at h2
        omega
      · simp at h2 ⊢
        omega
  · intro d s u h
    exact crawl_page_of_skip d (some n) s u (hskip s u h)
  · intro url s link h
    rw [process_link_eq]
    have hb : budget_allows (some n) s.visited.length = false := by
      unfold budget_allows
      simp
      omega
    have hc : enq_cond (some n) url s.visited link = false := by
      unfold enq_cond
      rw [hb]
      simp
    rw [hc]
    simp

/-- Counterexample to C4 as stated (budget 0): with `--max-requests 0`
the Visited Set grows to 1 after one step, exceeding the budget. -/
theorem claim4_budget_zero_cex :
    (run_crawl drvA (some 0) 1 (init_state seedX)).visited.length = 1 ∧
      ¬ ((1 : Nat) ≤ 0) := by
  decide

/-- Witness for C4: the amended theorem applied at budget 1. -/
theorem claim4_budget_bound_witness :
    (1 : Int) ≤ 1 ∧
      (((run_crawl drvA (some 1) 5 (init_state seedX)).visited.length : Int) ≤ 1) := by
  refine ⟨by decide, ?_⟩
  exact (claim4_budget_bound 1 (by decide)).1 drvA seedX 5

/-- Claim C5 (confirmed): the Visited Set's insertion trace never repeats a
URL; a URL is inserted before any page work begins (it is in `visited`
right after the guard passes); and dequeuing an already-visited URL is a
no-op for the state while the worker still calls `task_done`. -/
theorem claim5_visited_at_most_once :
    (∀ (d : PageDriver) (m : Option Int) (seed : Url) (fuel : Nat),
        (run_crawl d m fuel (init_state seed)).visited.Nodup) ∧
    (∀ (d : PageDriver) (m : Option Int) (s : CrawlState) (u : Url),
        u ∈ s.visited → crawl_page d m s u = s) ∧
    (∀ (d : PageDriver) (m : Option Int) (s : CrawlState) (u : Url),
        u ∈ s.visited → worker_step d m s (some u) = (task_done s, false)) ∧
    (∀ (d : PageDriver) (m : Option Int) (s : CrawlState) (u : Url),
        skip_check m s u = false → u ∈ (crawl_page d m s u).visited) := by
  have hnoop : ∀ (d : PageDriver) (m : Option Int) (s : CrawlState) (u : Url),
      u ∈ s.visited → crawl_page d m s u = s := by
    intro d m s u hu
    exact crawl_page_of_skip d m s u (skip_check_true_of_visited hu)
  refine ⟨?_, hnoop, ?_, ?_⟩
  · intro d m seed fuel
    refine run_crawl_invariant d m (fun t => t.visited.Nodup)
      ?_ fuel (init_state seed) (by simp [init_state])
    intro t u rest hq hP
    rw [task_done_visited]
    cases hsk : skip_check m { t with queue := rest } u with
    | true =>
      rw [crawl_page_of_skip d m _ u hsk]
      exact hP
    | false =>
      rw [(crawl_page_eq d m _ u hsk).1]
      have hnv : u ∉ t.visited := skip_check_false_not_visited hsk
      simp [List.nodup_append, hP, hnv]
  · intro d m s u hu
    show (task_done (crawl_page d m s u), false) = (task_done s, false)
    rw [hnoop d m s u hu]
  · intro d m s u hsk
    rw [(crawl_page_eq d m s u hsk).1]
    exact List.mem_append.mpr (Or.inr (List.mem_singleton_self u))

/-- Witness for C5: applied on the diamond graph, where the same URL is
dequeued twice. -/
theorem claim5_visited_at_most_once_witness :
    (run_crawl drvD none 5 (init_state urlS)).visited.Nodup ∧
    urlC ∈ (run_crawl drvD none 4 (init_state urlS)).visited ∧
    crawl_page drvD none (run_crawl drvD none 4 (init_state urlS)) urlC =
      run_crawl drvD none 4 (init_state urlS) := by
  refine ⟨claim5_visited_at_most_once.1 drvD none urlS 5, by decide, ?_⟩
  exact claim5_visited_at_most_once.2.1 drvD none _ urlC (by decide)

/-- Claim C7 (amended): a name is a key of the Header Map iff it occurred
*verbatim* as a response header name whose lower-cased form is not on the
ignore-list; the ignore comparison is case-insensitive, but the stored key
is not normalized, so keys differing only in case can coexist. -/
theorem claim7_header_keys_verbatim :
    (∀ (events m : List (String × String)) (k : String),
        k ∈ (handle_response m events).map Prod.fst ↔
          k ∈ m.map Prod.fst ∨
            ((∃ v, (k, v) ∈ events) ∧ str_lower k ∉ ignored_headers)) ∧
    (∀ (m : List (String × String)) (e : String × String),
        str_lower e.1 ∈ ignored_headers → record_header m e = m) := by
  constructor
  · exact fun events => handle_response_keys events
  · intro m e he
    unfold record_header
    rw [if_pos he]

/-- Counterexample to C7 as stated: recording `Server` then `server`
leaves both keys in the Header Map, differing only in letter case, so no
canonical-case normalization happens before storing. -/
theorem claim7_header_normalize_cex :
    ("Server", "a") ∈ handle_response [] [("Server", "a"), ("server", "b")] ∧
    ("server", "b") ∈ handle_response [] [("Server", "a"), ("server", "b")] ∧
    "Server" ≠ "server" ∧ str_lower "Server" = str_lower "server" := by
  decide

/-- Witness for C7: the amended theorem applied at concrete events. -/
theorem claim7_header_keys_verbatim_witness :
    ("server" ∈ (handle_response [] [("Server", "a"), ("server", "b")]).map Prod.fst ↔
      "server" ∈ ([] : List (String × String)).map Prod.fst ∨
        ((∃ v, ("server", v) ∈ [("Server", "a"), ("server", "b")]) ∧
          str_lower "server" ∉ ignored_headers)) ∧
    record_header [("X", "1")] ("Date", "x") = [("X", "1")] := by
  refine ⟨claim7_header_keys_verbatim.1 [("Server", "a"), ("server", "b")] [] "server", ?_⟩
  exact claim7_header_keys_verbatim.2 [("X", "1")] ("Date", "x") (by decide)

/-- Claim C8 (amended): on every exit path of `crawl_page` the page resource
is released (the `finally` at line 128), but the scoped browsing context is
*never* closed — no `context.close()` exists on any path. -/
theorem claim8_page_closed_context_leaked :
    (∀ (d : PageDriver) (m : Option Int) (s : CrawlState) (u : Url),
        PageAction.context_close ∉ crawl_page_actions d m s u) ∧
    (∀ (d : PageDriver) (m : Option Int) (s : CrawlState) (u : Url),
        skip_check m s u = false →
          PageAction.page_close ∈ crawl_page_actions d m s u) := by
  constructor
  · intro d m s u hmem
    unfold crawl_page_actions at hmem
    by_cases hsk : skip_check m s u = true
    · rw [if_pos hsk] at hmem
      cases hmem
    · rw [if_neg hsk] at hmem
      cases hf : d.fetch u
      · rw [hf] at hmem
        simp at hmem
      · rw [hf] at hmem
        simp at hmem
  · intro d m s u hsk
    unfold crawl_page_actions
    rw [if_neg (by simp [hsk])]
    cases hf : d.fetch u <;> simp

/-- Counterexample to C8 as stated: a successful crawl of the seed
closes the page but never closes the acquired context. -/
theorem claim8_context_release_cex :
    PageAction.page_close ∈ crawl_page_actions drvA none (init_state seedX) seedX ∧
    PageAction.context_close ∉ crawl_page_actions drvA none (init_state seedX) seedX := by
  decide

/-- Witness for C8: the amended theorem applied on a failing
navigation. -/
theorem claim8_page_closed_context_leaked_witness :
    PageAction.context_close ∉ crawl_page_actions drvFail none (init_state seedF) seedF ∧
    PageAction.page_close ∈ crawl_page_actions drvFail none (init_state seedF) seedF := by
  refine ⟨claim8_page_closed_context_leaked.1 drvFail none (init_state seedF) seedF, ?_⟩
  exact claim8_page_closed_context_leaked.2 drvFail none (init_state seedF) seedF (by decide)

/-- Claim C10 (confirmed): on the diamond graph the queue holds `/c` twice
after three steps (the enqueue check consults only the visited set), yet
the insertion trace records `/c` once; the second dequeue of `/c` is
discarded by the visited re-check while still consuming a queue slot, and
the run drains with all items marked done. -/
theorem claim10_queue_no_dedup :
    (run_crawl drvD none 3 (init_state urlS)).queue.count urlC = 2 ∧
    (run_crawl drvD none 5 (init_state urlS)).visited.count urlC = 1 ∧
    urlC ∈ (run_crawl drvD none 4 (init_state urlS)).visited ∧
    crawl_page drvD none (run_crawl drvD none 4 (init_state urlS)) urlC =
      run_crawl drvD none 4 (init_state urlS) ∧
    (run_crawl drvD none 5 (init_state urlS)).queue = [] ∧
    (run_crawl drvD none 5 (init_state urlS)).pending = 0 := by
  decide

/-! ### The witness graph for the reachability claim -/

theorem drvW_fetch_of_ne {u : Url} (h : u ≠ seedW) : drvW.fetch u = some [] := by
  show (if u = seedW then some [pageW] else some []) = some []
  rw [if_neg h]

theorem drvW_edge {u v : Url} (h : Edge drvW u v) : u = seedW ∧ v = pageW := by
  obtain ⟨ls, hf, hv, _⟩ := h
  by_cases hu : u = seedW
  · subst hu
    have h2 : drvW.fetch seedW = some [pageW] := rfl
    rw [h2] at hf
    obtain rfl := Option.some.inj hf
    exact ⟨rfl, List.mem_singleton.mp hv⟩
  · exfalso
    rw [drvW_fetch_of_ne hu] at hf
    obtain rfl := Option.some.inj hf
    exact absurd hv (List.not_mem_nil v)

theorem drvW_plus_target {u v : Url} (h : ReachesPlus drvW u v) : v = pageW := by
  induction h with
  | single hE => exact (drvW_edge hE).2
  | tail _ hE _ => exact (drvW_edge hE).2

theorem drvW_acyclic : Acyclic drvW := by
  intro u h
  have hu : u = pageW := drvW_plus_target h
  subst hu
  cases h with
  | single hE => exact absurd (drvW_edge hE).1 (by decide)
  | tail hp hE =>
    have h1 := (drvW_edge hE).1
    have h2 := drvW_plus_target hp
    rw [h2] at h1
    exact absurd h1 (by decide)

theorem drvW_closed : ∀ (u : Url) (ls : List Url), drvW.fetch u = some ls →
    ∀ v ∈ ls, v ∈ univW := by
  intro u ls hf v hv
  by_cases hu : u = seedW
  · subst hu
    have h2 : drvW.fetch seedW = some [pageW] := rfl
    rw [h2] at hf
    obtain rfl := Option.some.inj hf
    rw [List.mem_singleton.mp hv]
    simp [univW]
  · rw [drvW_fetch_of_ne hu] at hf
    obtain rfl := Option.some.inj hf
    exact absurd hv (List.not_mem_nil v)

/-- Claim C6 (amended): for every finite same-origin-closed universe and an
acyclic link graph with no budget, the crawl reaches a drained, fully
marked-done state whose Discovered Set is exactly the set of URLs other
than the seed that are reachable from the seed through extracted links
whose *netloc* matches the linking page's, filtered by the substring-based
`is_html_page` test.  (Same-origin here is the code's netloc comparison,
and the asset filter is the code's substring test — see C1 and C2.) -/
theorem claim6_crawl_reachability (d : PageDriver) (seed : Url) (U : List Url)
    (hseedU : seed ∈ U)
    (hcl : ∀ u ls, d.fetch u = some ls → ∀ v ∈ ls, v ∈ U)
    (_hacyc : Acyclic d) :
    ∃ fuel : Nat,
      join_returns (run_crawl d none fuel (init_state seed)) ∧
      ∀ v : Url,
        v ∈ (run_crawl d none fuel (init_state seed)).discovered ↔
          (Reaches d seed v ∧ v ≠ seed ∧ is_html_page v.str = true) := by
  obtain ⟨f, hf⟩ := run_crawl_terminates d none U hcl (init_state seed)
    (by simp [init_state]) (by simp [init_state])
    (by
      intro v hv
      simp [init_state] at hv
      rw [hv]
      exact hseedU)
  refine ⟨f, ⟨hf, ?_⟩, ?_⟩
  · have hp := run_crawl_pending d none f (init_state seed) (by simp [init_state])
    rw [hf] at hp
    simpa using hp
  · cases f with
    | zero =>
      have h0 : (init_state seed).queue = [] := hf
      simp [init_state] at h0
    | succ nf =>
      have hstep : run_crawl d none (nf + 1) (init_state seed) =
          run_crawl d none nf
            (task_done (crawl_page d none { init_state seed with queue := [] } seed)) :=
        run_crawl_succ d none nf (init_state seed) seed [] rfl
      have hinv : ReachInv d seed (run_crawl d none (nf + 1) (init_state seed)) := by
        rw [hstep]
        exact run_crawl_invariant d none (ReachInv d seed)
          (fun s u rest hq h => reach_inv_step d seed s u rest hq h) nf _
          (reach_inv_start d seed)
      intro v
      rw [hinv.2.2.2.2 v]
      constructor
      · rintro ⟨hmem, hS, hH⟩
        refine ⟨?_, hS, hH⟩
        rcases hmem with h | h
        · exact hinv.2.1 v h
        · rw [hf] at h
          cases h
      · rintro ⟨hR, hS, hH⟩
        exact ⟨Or.inl (reaches_mem_visited d seed _ hf hinv v hR), hS, hH⟩

/-- Counterexample to C6 as stated: on a finite acyclic graph with no
budget, the final Discovered Set contains `http://w.test/a.html`, which is
*not* same-origin (scheme+host+port) with the seed `https://w.test/`, so
the Discovered Set is not the reachable same-origin page-like URL set. -/
theorem claim6_same_origin_cex :
    Acyclic drvW ∧
    pageW ∈ (run_crawl drvW none 2 (init_state seedW)).discovered ∧
    ¬ same_origin_spec seedW pageW := by
  refine ⟨drvW_acyclic, by decide, ?_⟩
  intro h
  exact absurd h.1 (by decide)

/-- Witness for C6: the amended theorem applied to the two-page acyclic
graph. -/
theorem claim6_crawl_reachability_witness :
    seedW ∈ univW ∧ Acyclic drvW ∧
    (∃ fuel : Nat,
      join_returns (run_crawl drvW none fuel (init_state seedW)) ∧
      ∀ v : Url,
        v ∈ (run_crawl drvW none fuel (init_state seedW)).discovered ↔
          (Reaches drvW seedW v ∧ v ≠ seedW ∧ is_html_page v.str = true)) := by
  refine ⟨by decide, drvW_acyclic, ?_⟩
  exact claim6_crawl_reachability drvW seedW univW (by decide) drvW_closed drvW_acyclic

/-! ### The script entry point on a failing seed -/

theorem script_main_no_flags (d : PageDriver) (urlparse0 : String → Url)
    (prog su : String) (hprog : prog ≠ "--max-requests") (hsu : su ≠ "--max-requests")
    (fuel : Nat) :
    script_main d urlparse0 [prog, su] fuel =
      Except.ok ((run_crawl d none fuel (init_state (urlparse0 su))).discovered,
        (run_crawl d none fuel (init_state (urlparse0 su))).headers) := by
  have hmem : "--max-requests" ∉ [prog, su] := by
    intro hmem
    rcases List.mem_cons.mp hmem with h | h
    · exact hprog h.symm
    · rcases List.mem_cons.mp h with h2 | h2
      · exact hsu h2.symm
      · exact absurd h2 (List.not_mem_nil _)
  unfold script_main
  simp [hmem]

/-- Claim C9 (confirmed): when the seed page's navigation fails before any
response or link is delivered, the queue still drains after one step, the
join condition holds, and the script returns the JSON payload with an
empty URL list and empty header map through the exit-code-0 path. -/
theorem claim9_seed_failure_clean (d : PageDriver) (urlparse0 : String → Url)
    (su : String) (hne : su ≠ "--max-requests")
    (hf : d.fetch (urlparse0 su) = none)
    (hr : d.responses (urlparse0 su) = [])
    (fuel : Nat) (hfuel : 1 ≤ fuel) :
    script_main d urlparse0 ["nightcrawler.py", su] fuel =
      Except.ok (([] : List Url), ([] : List (String × String))) ∧
    join_returns (run_crawl d none fuel (init_state (urlparse0 su))) := by
  have hsk : skip_check none { init_state (urlparse0 su) with queue := [] }
      (urlparse0 su) = false := by
    simp [skip_check, init_state]
  have hcrawl : crawl_page d none { init_state (urlparse0 su) with queue := [] }
      (urlparse0 su) =
      { visited := [urlparse0 su], discovered := [], headers := [], queue := [],
        pending := 1 } := by
    rw [crawl_page_def d none _ _ hsk, hf]
    simp [init_state, handle_response, hr]
  have hrun1 : run_crawl d none 1 (init_state (urlparse0 su)) =
      { visited := [urlparse0 su], discovered := [], headers := [], queue := [],
        pending := 0 } := by
    have h1 : run_crawl d none 1 (init_state (urlparse0 su)) =
        run_crawl d none 0
          (task_done (crawl_page d none { init_state (urlparse0 su) with queue := [] }
            (urlparse0 su))) :=
      run_crawl_succ d none 0 (init_state (urlparse0 su)) (urlparse0 su) [] rfl
    rw [h1, hcrawl]
    rfl
  have hrunF : run_crawl d none fuel (init_state (urlparse0 su)) =
      { visited := [urlparse0 su], discovered := [], headers := [], queue := [],
        pending := 0 } := by
    have hsplit : fuel = 1 + (fuel - 1) := by omega
    rw [hsplit, run_crawl_add d none 1 (fuel - 1) _, hrun1,
      run_crawl_queue_nil d none (fuel - 1) _ rfl]
  constructor
  · rw [script_main_no_flags d urlparse0 "nightcrawler.py" su (by decide) hne fuel, hrunF]
  · rw [hrunF]
    exact ⟨rfl, rfl⟩

/-- Witness for C9: the theorem applied to a concrete failing driver. -/
theorem claim9_seed_failure_clean_witness :
    drvFail.fetch (urlparseF "https://f.test/") = none ∧
    drvFail.responses (urlparseF "https://f.test/") = [] ∧
    (script_main drvFail urlparseF ["nightcrawler.py", "https://f.test/"] 1 =
        Except.ok (([] : List Url), ([] : List (String × String))) ∧
      join_returns (run_crawl drvFail none 1 (init_state (urlparseF "https://f.test/")))) := by
  refine ⟨rfl, rfl, ?_⟩
  exact claim9_seed_failure_clean drvFail urlparseF "https://f.test/" (by decide) rfl rfl 1
    (by decide)

end NightCrawler
